import Mathlib

/-!
Verification of the kosuke-core agent service (directory `src/agent/app`).

The development shallowly embeds the Python source:

* `app/models/actions.py` — `ActionType`, `Action`, `normalize_action`;
* `app/services/llm_service.py` — `parse_agent_response`;
* `app/core/actions.py` — `ActionExecutor.execute_action` and
  `_execute_tool_action`;
* `app/tools/file_tools.py` — the tool registry, in particular `SearchTool`;
* `app/core/agent.py` — the agentic workflow loop, its event stream, the
  forced-execution heuristic and the completion webhook.

Python strings are embedded as `List Char` where character-level path
manipulation matters, and as `String` for message payloads treated as atoms.
External collaborators (the LLM, file system and webhook receiver) are
modelled as oracles supplied in a `Script`; the loop itself is a pure
function from the script to its observable output.

A load-bearing fact of the source: the `Action` pydantic model sets
`use_enum_values = True`, so under pydantic v2 the `action` field holds
the plain value string of the enum, and every `action.action.value`
attribute access in the source (`core/actions.py:32`, `agent.py:192`,
`agent.py:273`, `agent.py:326`) raises `AttributeError`.  The embedding
models those raises explicitly: the executor always returns `False`
without reaching the tool registry, non-empty batches and non-empty
thinking replies abort their iteration into the per-iteration error
handler, and only empty action lists flow through execution.  The
executor tests in `tests/test_agent_core.py`, which mock only `get_tool`
and assert that `execute_action` returns `True` and invokes the tool,
cannot pass against this code.
-/

namespace Kosuke

/-- Whitespace characters stripped by the Python `str.strip()` method
(ASCII subset; the source paths in play are ASCII). -/
def isPySpace (c : Char) : Bool :=
  c = ' ' || c = '\t' || c = '\n' || c = '\x0d' || c = '\x0b' || c = '\x0c'

/-- Embedding of Python `str.strip()`: drop whitespace from both ends. -/
def pyStrip (l : List Char) : List Char :=
  ((l.dropWhile isPySpace).reverse.dropWhile isPySpace).reverse

/-- The first character of `l`, when there is one, is not whitespace. -/
def headOk (l : List Char) : Bool :=
  match l with
  | [] => true
  | c :: _ => !isPySpace c

/-- Decide whether `p` is a leading segment of `l` (used in place of the
Python `str.startswith`). -/
def startsWithL : List Char → List Char → Bool
  | [], _ => true
  | _ :: _, [] => false
  | c :: p, d :: l => c = d && startsWithL p l

/-- Action kinds of `ActionType` in `app/models/actions.py`. -/
inductive ActionType where
  | readFile
  | editFile
  | createFile
  | deleteFile
  | createDirectory
  | removeDirectory
  | search
deriving DecidableEq, Repr

/-- String value of an `ActionType` member (`use_enum_values` makes the
Python attribute carry this string). -/
def ActionType.value : ActionType → String
  | .readFile => "readFile"
  | .editFile => "editFile"
  | .createFile => "createFile"
  | .deleteFile => "deleteFile"
  | .createDirectory => "createDirectory"
  | .removeDirectory => "removeDirectory"
  | .search => "search"

/-- The `Action` pydantic model of `app/models/actions.py`.  The Python
field `match` is embedded as `matchS` (`match` is reserved in Lean). -/
structure Action where
  action : ActionType
  filePath : List Char
  content : Option String := none
  matchS : Option String := none
  message : String
deriving DecidableEq, Repr

/-- Embedding of the first path step of `normalize_action`: remove one
leading slash when present. -/
def stripLeadSlash (l : List Char) : List Char :=
  match l with
  | [] => []
  | c :: t => if c = '/' then t else c :: t

/-- Embedding of the second path step of `normalize_action`: remove one
leading `./` when present. -/
def stripLeadDotSlash (l : List Char) : List Char :=
  match l with
  | c :: d :: t => if c = '.' && d = '/' then t else c :: d :: t
  | l => l

/-- Path cleanup performed by `normalize_action`: strip whitespace, then
one leading `/`, then one leading `./`. -/
def normPath (l : List Char) : List Char :=
  stripLeadDotSlash (stripLeadSlash (pyStrip l))

/-- Embedding of `normalize_action` from `app/models/actions.py`.  The
message field mirrors the Python `action.message or ""` (the empty string
is falsy, so the expression always reproduces the original message). -/
def normalizeAction (a : Action) : Action :=
  { action := a.action
    filePath := normPath a.filePath
    content := a.content
    matchS := a.matchS
    message := if a.message = "" then "" else a.message }

/-- Decide whether the first character of `l` is `x`. -/
def headIs (x : Char) (l : List Char) : Bool :=
  match l with
  | [] => false
  | c :: _ => c = x

/-- A list of characters starts badly when it begins with whitespace, a
slash, or `./` — exactly the prefixes the spec says a normalized path
never has. -/
def startsBad (l : List Char) : Bool :=
  match l with
  | [] => false
  | c :: t => isPySpace c || c = '/' || (c = '.' && headIs '/' t)

/-- The stripped input paths on which one round of `normalize_action`
does not reach a clean path: a `/` or `./` head stacked over a second
bad head (for example `//a`, `./ x` or `/.//b`). -/
def hasStackedLead (l : List Char) : Bool :=
  match l with
  | [] => false
  | c :: t =>
    if c = '/' then startsBad (stripLeadDotSlash t)
    else if c = '.' && headIs '/' t then startsBad t.tail
    else false

/-- The last character of `l` is not whitespace (vacuously true for the
empty list). -/
def noTrailSpace (l : List Char) : Bool :=
  headOk l.reverse

/-!
Embedding of `LLMService.parse_agent_response` (`app/services/llm_service.py`).

The Python function strips markdown fences with a regular expression and
then calls `json.loads`; fencing and the JSON grammar live in external
libraries, so the embedding starts from the outcome of `json.loads`: an
`Except` of a `Json` value.  JSON numbers are modelled as integers (no
claim touches fractional values), and objects produced by `json.loads`
carry pairwise distinct keys.
-/

/-- JSON values as returned by `json.loads`. -/
inductive Json where
  | null
  | bool (b : Bool)
  | num (n : Int)
  | str (s : String)
  | arr (elems : List Json)
  | obj (fields : List (String × Json))
deriving Repr

/-- Truthiness of a JSON value under the Python `bool(...)` coercion used
for the `thinking` field. -/
def pyTruthy : Json → Bool
  | .null => false
  | .bool b => b
  | .num n => n != 0
  | .str s => s != ""
  | .arr l => !l.isEmpty
  | .obj f => !f.isEmpty

/-- Field lookup in a JSON object (`json.loads` yields distinct keys, so
first match is the match). -/
def jsonGet (fields : List (String × Json)) (key : String) : Option Json :=
  match fields with
  | [] => none
  | (k, v) :: rest => if k = key then some v else jsonGet rest key

/-- Decode a JSON value into an `ActionType` the pydantic validator
accepts: exactly the seven enum value strings. -/
def decodeActionType (v : Json) : Option ActionType :=
  match v with
  | .str "readFile" => some .readFile
  | .str "editFile" => some .editFile
  | .str "createFile" => some .createFile
  | .str "deleteFile" => some .deleteFile
  | .str "createDirectory" => some .createDirectory
  | .str "removeDirectory" => some .removeDirectory
  | .str "search" => some .search
  | _ => none

/-- Decode an optional string field (`Optional[str] = None`): absent or
`null` give `none`, a string gives `some`, anything else is a validation
failure. -/
def decodeOptStr (v : Option Json) : Option (Option String) :=
  match v with
  | none => some none
  | some .null => some none
  | some (.str s) => some (some s)
  | some _ => none

/-- Construction of an `Action` from one entry of the `actions` array,
embedding `Action(**action_data)`: the entry must be an object, `action`
must be one of the seven enum strings, the path may arrive under the
alias `filePath` or the field name `file_path` (`populate_by_name`),
`content` and `match` are optional strings and `message` is a required
string.  `none` is the pydantic `ValidationError` branch, which
`parse_agent_response` logs and drops. -/
def mkAction (v : Json) : Option Action :=
  match v with
  | .obj fields =>
    match decodeActionType ((jsonGet fields "action").getD .null) with
    | none => none
    | some kind =>
      match (jsonGet fields "filePath").orElse (fun _ => jsonGet fields "file_path") with
      | some (.str path) =>
        match decodeOptStr (jsonGet fields "content"), decodeOptStr (jsonGet fields "match") with
        | some c, some m =>
          match jsonGet fields "message" with
          | some (.str msg) =>
            some { action := kind, filePath := path.toList, content := c,
                   matchS := m, message := msg }
          | _ => none
        | _, _ => none
      | _ => none
  | _ => none

/-- The `{thinking, actions}` decision returned by
`parse_agent_response` (the spec calls it `ParsedDecision`). -/
structure Decision where
  thinking : Bool
  actions : List Action
deriving DecidableEq, Repr

/-- Embedding of `parse_agent_response`, starting from the result of
`json.loads` on the fence-stripped text: a decode error re-raises (the
only fatal case), and a decoded value yields a decision with `thinking`
defaulting to `true`, the `thinking` field coerced with `bool(...)`, and
the `actions` array filtered to its validly constructed entries. -/
def parseAgentResponse (loaded : Except String Json) : Except String Decision :=
  match loaded with
  | .error e => .error ("Failed to parse JSON response from LLM: " ++ e)
  | .ok v =>
    let thinking :=
      match v with
      | .obj fields =>
        match jsonGet fields "thinking" with
        | some t => pyTruthy t
        | none => true
      | _ => true
    let actions :=
      match v with
      | .obj fields =>
        match jsonGet fields "actions" with
        | some (.arr entries) => entries.filterMap mkAction
        | _ => []
      | _ => []
    .ok { thinking := thinking, actions := actions }

/-!
Embedding of `ActionExecutor` (`app/core/actions.py`) and the tool layer
(`app/tools/file_tools.py`).

Each tool wraps a file-system primitive in a `try` that converts any
exception into `{"success": False}`; the file system itself is external,
so a `ToolFS` oracle stands for it.  The tool layer is modelled for its
own contract (`SearchTool.execute` in particular), but the executor
never reaches it: `execute_action` evaluates
`normalized_action.action.value` at `core/actions.py:32`, the `action`
field holds a plain string under `use_enum_values`, and the attribute
access raises `AttributeError` inside the `try`, whose handler returns
`False` before `get_tool` and before any `tool.execute`.
-/

/-- Record of one `tool.execute(...)` invocation with the arguments the
dispatch code in `_execute_tool_action` would pass; the executor never
performs any (see `executeAction`). -/
inductive ToolCall where
  | readFile (path : List Char)
  | createFile (path : List Char) (content : String)
  | editFile (path : List Char) (content : String)
  | deleteFile (path : List Char)
  | createDirectory (path : List Char)
  | removeDirectory (path : List Char)
  | search (term : List Char) (projectPath : Option (List (List Char)))
deriving DecidableEq, Repr

/-- Outcomes of the underlying `fs_service` primitives, one per tool that
touches the file system (`True` means the wrapped call does not raise, so
the tool returns `{"success": True}`). -/
structure ToolFS where
  readFile : List Char → Bool
  createFile : List Char → String → Bool
  updateFile : List Char → String → Bool
  deleteFile : List Char → Bool
  createDirectory : List Char → Bool
  deleteDirectory : List Char → Bool

/-- Result dictionary of `SearchTool.execute`. -/
structure SearchResult where
  success : Bool
  files : List (List Char)
deriving DecidableEq, Repr

/-- The hardcoded fallback listing `SearchTool.execute` returns when no
`project_path` is supplied. -/
def mockSearchFiles : List (List Char) :=
  [ "components/ui/button.tsx".toList
  , "components/ui/card.tsx".toList
  , "app/page.tsx".toList
  , "lib/utils.ts".toList ]

/-- Case-insensitive substring containment, embedding the Python
`search_term.lower() in f.lower()` filter of `SearchTool.execute`. -/
def containsCI (hay needle : List Char) : Bool :=
  (String.mk (hay.map Char.toLower)).containsSubstr (String.mk (needle.map Char.toLower))

/-- Embedding of `SearchTool.execute`: with a project listing it filters
the listing by case-insensitive containment; with `none` it returns the
fixed mock file list.  Both paths report success. -/
def searchToolExecute (term : List Char) (projectFiles : Option (List (List Char))) :
    SearchResult :=
  match projectFiles with
  | some files => { success := true, files := files.filter (fun f => containsCI f term) }
  | none => { success := true, files := mockSearchFiles }

/-- Message of the `AttributeError` raised by the `.value` attribute
access on the plain string stored in the `action` field under
`use_enum_values`. -/
def attributeErrorMsg : String :=
  "AttributeError: str object has no attribute value"

/-- Embedding of `ActionExecutor.execute_action`: the action is
normalized (which succeeds), then `core/actions.py:32` evaluates
`normalized_action.action.value`; the `action` field holds the plain
enum value string, so the attribute access raises `AttributeError`, and
the surrounding `try` returns `False`.  `get_tool` and `tool.execute`
are never reached: every call returns `False` with no tool invocation,
whatever the action kind and whatever the file system would do. -/
def executeAction (_fs : ToolFS) (_root : List Char) (a : Action) :
    Bool × List ToolCall :=
  let _na := normalizeAction a
  (false, [])

/-!
Embedding of the agent loop (`app/core/agent.py`).

The only external collaborator that matters to the control flow is the
LLM (`generate_completion` followed by `parse_agent_response`),
collected in a `Script` oracle; `runAgent` is a pure function from the
script to the observable output of the run: the ordered event stream,
the number of LLM calls, the completion webhooks fired, and whether the
`MaxIterationsExceeded` error escaped.

The `action.action.value` accesses shape the reachable behavior:

* `_execute_actions` computes
  `_map_action_to_update_type(action.action.value)` at `agent.py:192`
  before its first `yield`, so a non-empty batch raises before emitting
  any per-action event; the exception lands in the per-iteration
  handler, the completion webhook is skipped and the loop continues.
  An empty batch skips the loop body and yields the synthetic completed
  event, after which the completion webhook fires and the run returns.
* `_should_force_execution` evaluates `a.action.value` at `agent.py:326`
  and raises on every non-empty actions list, so a thinking reply that
  carries actions aborts its iteration; only a reply with no actions
  can force execution, and then only by the iteration threshold (its
  duplicate-read list is empty).
* `_execute_read_actions` would raise at `agent.py:273` on a non-empty
  list, but it is only ever reached with an empty one (a non-empty list
  already raised inside `_should_force_execution`), so the read phase
  yields nothing and `read_files` never grows.
-/

/-- Stream event types occurring in the `type` field of yielded dicts. -/
inductive EvType where
  | thinking
  | read
  | create
  | edit
  | delete
  | error
  | completed
  | unknown
deriving DecidableEq, Repr

/-- Stream event statuses occurring in the `status` field. -/
inductive EvStatus where
  | pending
  | completed
  | error
deriving DecidableEq, Repr

/-- One yielded stream event; `errorType` is the optional `error_type`
field, present only on the run-level classified error event. -/
structure Event where
  type : EvType
  filePath : List Char
  message : String
  status : EvStatus
  errorType : Option String := none
deriving DecidableEq, Repr

/-- Initial event of `Agent.run`. -/
def analyzingEvent : Event :=
  { type := .thinking, filePath := [], message := "Analyzing project structure...",
    status := .pending }

/-- Per-iteration `thinking` event of `_run_agentic_workflow`. -/
def thinkingEvent (i : Nat) : Event :=
  { type := .thinking, filePath := [],
    message := "Thinking... (iteration " ++ toString i ++ ")", status := .pending }

/-- Event yielded when the reply switches to execution mode. -/
def readyEvent : Event :=
  { type := .thinking, filePath := [], message := "Ready to execute changes",
    status := .completed }

/-- Event yielded when the loop forces execution mode. -/
def forcingEvent : Event :=
  { type := .thinking, filePath := [], message := "Forcing execution mode",
    status := .pending }

/-- Synthetic terminal event yielded after a fully successful batch. -/
def batchCompletedEvent : Event :=
  { type := .completed, filePath := [],
    message := "All changes have been implemented successfully!", status := .completed }

/-- Terminal error event produced by `Agent.run` when the workflow
raises `AgentError(PROCESSING, "Reached maximum iterations ...")`:
`classify_error` keeps the carried kind and `get_error_message` renders
the processing message. -/
def maxIterationsEvent : Event :=
  { type := .error, filePath := [],
    message := "There was an error processing your request. Please try rephrasing it.",
    status := .error, errorType := some "processing" }

/-- Events of `_execute_actions` as iterated by the workflow: an empty
batch skips the per-action loop and yields exactly the synthetic
completed event; a non-empty batch evaluates `action.action.value`
(`agent.py:192`) before its first yield and raises `AttributeError`, so
it produces no events and the exception propagates to the caller. -/
def execBatch : List Action → Except String (List Event)
  | [] => .ok [batchCompletedEvent]
  | _ :: _ => .error attributeErrorMsg

/-- Iteration threshold of `_should_force_execution`, embedding the
Python `int(self.max_iterations * 0.8)`: with IEEE doubles the product
`m * 0.8` lies in `[4m/5, 4m/5 + 1)` for every relevant `m` (the float
`0.8` is slightly above four fifths and the relative error is about
`2⁻⁵²`), so truncation gives exactly `⌊4m/5⌋`. -/
def forceThreshold (m : Nat) : Nat :=
  4 * m / 5

/-- Duplicate reads as the comprehension in `_should_force_execution`
intends them: actions of kind `readFile` whose path was already read.
Evaluating the comprehension in the source raises on any non-empty
list (see `shouldForce`); on the empty list it is empty. -/
def duplicateReads (actions : List Action) (readFiles : List (List Char)) : List Action :=
  actions.filter (fun a =>
    decide (a.action = ActionType.readFile) && decide (a.filePath ∈ readFiles))

/-- Embedding of `Agent._should_force_execution`: the duplicate-reads
comprehension evaluates `a.action.value` (`agent.py:326`) and raises
`AttributeError` as soon as `actions` is non-empty; on an empty list the
comprehension is empty and the decision reduces to the iteration
threshold. -/
def shouldForce (actions : List Action) (readFiles : List (List Char))
    (iterationCount maxIterations : Nat) : Except String Bool :=
  match actions with
  | [] => .ok (decide (3 ≤ (duplicateReads [] readFiles).length) ||
      decide (forceThreshold maxIterations ≤ iterationCount))
  | _ :: _ => .error attributeErrorMsg

/-- External behavior driving one run: `llm k` is the outcome of the
`k`-th LLM call after parsing (`.error` when `generate_completion` or
`parse_agent_response` raised). -/
structure Script where
  llm : Nat → Except String Decision

/-- Observable output of one run. -/
structure RunOut where
  events : List Event
  llmCalls : Nat
  completions : List Bool
  failed : Bool
deriving Repr

/-- One-step structure of the `while` loop in `_run_agentic_workflow`.
The fuel argument keeps `maxIterations - iterationCount` so the Python
guard `iteration_count < max_iterations` is `fuel > 0`; `calls` indexes
LLM invocations and `rf` carries `read_files` (which never grows, since
the read phase is only reached with an empty actions list).  A parse
failure, a non-empty batch (`AttributeError` at `agent.py:192`) and a
non-empty thinking reply (`AttributeError` at `agent.py:326`) are all
caught by the iteration handler and the loop continues; an empty batch
(direct or forced) yields the synthetic completed event, fires the
completion webhook with `success=True` and returns; exhausted fuel
raises the `MaxIterationsExceeded` error. -/
def loopW (s : Script) (maxIter : Nat) :
    Nat → Nat → Nat → List (List Char) → RunOut
  | 0, _, _, _ => { events := [], llmCalls := 0, completions := [], failed := true }
  | fuel + 1, iterC, calls, rf =>
    let i := iterC + 1
    match s.llm calls with
    | .error _ =>
      let r := loopW s maxIter fuel i (calls + 1) rf
      { r with events := thinkingEvent i :: r.events, llmCalls := r.llmCalls + 1 }
    | .ok d =>
      if d.thinking = false then
        match execBatch d.actions with
        | .ok evs =>
          { events := thinkingEvent i :: readyEvent :: evs,
            llmCalls := 1, completions := [true], failed := false }
        | .error _ =>
          let r := loopW s maxIter fuel i (calls + 1) rf
          { r with events := thinkingEvent i :: readyEvent :: r.events,
                   llmCalls := r.llmCalls + 1 }
      else
        match shouldForce d.actions rf i maxIter with
        | .error _ =>
          let r := loopW s maxIter fuel i (calls + 1) rf
          { r with events := thinkingEvent i :: r.events, llmCalls := r.llmCalls + 1 }
        | .ok true =>
          match s.llm (calls + 1) with
          | .error _ =>
            let r := loopW s maxIter fuel i (calls + 2) rf
            { r with events := thinkingEvent i :: forcingEvent :: r.events,
                     llmCalls := r.llmCalls + 2 }
          | .ok d2 =>
            match execBatch d2.actions with
            | .ok evs =>
              { events := thinkingEvent i :: forcingEvent :: evs,
                llmCalls := 2, completions := [true], failed := false }
            | .error _ =>
              let r := loopW s maxIter fuel i (calls + 2) rf
              { r with events := thinkingEvent i :: forcingEvent :: r.events,
                       llmCalls := r.llmCalls + 2 }
        | .ok false =>
          let r := loopW s maxIter fuel i (calls + 1) rf
          { r with events := thinkingEvent i :: r.events, llmCalls := r.llmCalls + 1 }

/-- Embedding of `Agent.run` around `_run_agentic_workflow`: the opening
analysis event, the loop, and — when the loop exhausts its iteration
budget — the single classified terminal error event. -/
def runAgent (maxIter : Nat) (s : Script) : RunOut :=
  let w := loopW s maxIter maxIter 0 0 []
  { w with events :=
      analyzingEvent :: (w.events ++ if w.failed then [maxIterationsEvent] else []) }

/-!
Claim-specific definitions: the spec-worded comparison predicate for the
forced-execution condition, and concrete inputs used by counterexamples
and witnesses.
-/

/-- Modelled from the spec: forced-execution condition as the claim
states it, with the iteration threshold at the mathematical ceiling of
`0.8 * maxIterations` (the Nat form of the ceiling of `4m/5` is
`(4m+4)/5`).  Written from the claim text for comparison against
`shouldForce`. -/
def claimedForceCondition (actions : List Action) (readFiles : List (List Char))
    (iterationCount maxIterations : Nat) : Bool :=
  decide (3 ≤ (duplicateReads actions readFiles).length) ||
  decide ((4 * maxIterations + 4) / 5 ≤ iterationCount)

/-- Action whose path keeps a leading slash through normalization. -/
def doubleSlashAction : Action :=
  { action := .readFile, filePath := "//a".toList, message := "m" }

/-- Action whose path keeps leading whitespace through one normalization
round, so a second round changes it again. -/
def dotSlashSpaceAction : Action :=
  { action := .readFile, filePath := "./ x".toList, message := "m" }

/-- Ordinary messy path on which normalization does reach a clean
path. -/
def spacedPathAction : Action :=
  { action := .createFile, filePath := "  /components/Button.tsx ".toList,
    content := some "x", message := "w" }

/-- File-system oracle on which every primitive succeeds. -/
def allOkFS : ToolFS :=
  { readFile := fun _ => true
    createFile := fun _ _ => true
    updateFile := fun _ _ => true
    deleteFile := fun _ => true
    createDirectory := fun _ => true
    deleteDirectory := fun _ => true }

/-- Create-file action with empty content. -/
def emptyContentAction : Action :=
  { action := .createFile, filePath := "a.txt".toList, content := some "",
    message := "m" }

/-- Search action used as the failing input of the search-dispatch
claim. -/
def searchAction : Action :=
  { action := .search, filePath := "button".toList, message := "s" }

/-- Script whose LLM always keeps thinking with no actions. -/
def alwaysThinkingScript : Script :=
  { llm := fun _ => .ok { thinking := true, actions := [] } }

/-- Read action whose path is already recorded as read, used to exercise
the duplicate-read branch. -/
def dupReadAction : Action :=
  { action := .readFile, filePath := "x".toList, message := "r" }

/-- First action of the two-action batch from the batch-abort example of
the spec. -/
def failingAction : Action :=
  { action := .createFile, filePath := "a.txt".toList, content := some "x",
    message := "m" }

/-- Second action of that two-action batch. -/
def secondBatchAction : Action :=
  { action := .editFile, filePath := "b.txt".toList, content := some "y",
    message := "m2" }

/-- Good JSON action entry used by the parse witness (the end-to-end
example entry of the spec). -/
def goodActionEntry : Json :=
  .obj [("action", .str "createFile"), ("filePath", .str "components/Button.tsx"),
        ("content", .str "<jsx>"), ("message", .str "add button")]

/-- Malformed JSON action entry (unknown action kind). -/
def badActionEntry : Json :=
  .obj [("action", .str "bogus")]

/-- LLM reply carrying one valid and one invalid action entry. -/
def mixedReply : Json :=
  .obj [("thinking", .bool false), ("actions", .arr [goodActionEntry, badActionEntry])]

/-!
Helper lemmas about path normalization, feeding the claims on
`normalize_action`.
-/

/-- Character surviving at the head of a `dropWhile` fails the predicate. -/
theorem dropWhile_head_false (p : Char → Bool) :
    ∀ (l : List Char) (c : Char) (t : List Char), l.dropWhile p = c :: t → p c = false := by
  intro l
  induction l with
  | nil => intro c t h; simp [List.dropWhile] at h
  | cons a l ih =>
    intro c t h
    by_cases hp : p a
    · rw [List.dropWhile_cons_of_pos hp] at h
      exact ih c t h
    · rw [List.dropWhile_cons_of_neg hp] at h
      cases h
      simpa using hp

/-- Dropping leading whitespace leaves a clean head. -/
theorem headOk_dropWhile (l : List Char) : headOk (l.dropWhile isPySpace) = true := by
  cases h : l.dropWhile isPySpace with
  | nil => rfl
  | cons c t =>
    have := dropWhile_head_false isPySpace l c t h
    simp [headOk, this]

/-- Reversing, dropping a leading run and reversing back keeps a clean
head. -/
theorem headOk_rev_dropWhile_rev (A : List Char) (hA : headOk A = true) :
    headOk (A.reverse.dropWhile isPySpace).reverse = true := by
  cases hB : (A.reverse.dropWhile isPySpace).reverse with
  | nil => rfl
  | cons c t =>
    have h1 : A.reverse.takeWhile isPySpace ++ A.reverse.dropWhile isPySpace =
        A.reverse := List.takeWhile_append_dropWhile isPySpace A.reverse
    have h2 : A = (A.reverse.dropWhile isPySpace).reverse ++
        (A.reverse.takeWhile isPySpace).reverse := by
      have h3 := congrArg List.reverse h1
      rw [List.reverse_append, List.reverse_reverse] at h3
      exact h3.symm
    rw [hB] at h2
    have h4 : A = c :: (t ++ (A.reverse.takeWhile isPySpace).reverse) := by
      simpa using h2
    rw [h4] at hA
    simpa [headOk] using hA

/-- The head of a stripped path is not whitespace. -/
theorem pyStrip_headOk (l : List Char) : headOk (pyStrip l) = true :=
  headOk_rev_dropWhile_rev (l.dropWhile isPySpace) (headOk_dropWhile l)

/-- A stripped path has no trailing whitespace. -/
theorem pyStrip_noTrail (l : List Char) : noTrailSpace (pyStrip l) = true := by
  unfold noTrailSpace pyStrip
  rw [List.reverse_reverse]
  exact headOk_dropWhile _

/-- Appending one character on the right does not disturb a clean head of
a nonempty list. -/
theorem headOk_append_single (xs : List Char) (c : Char)
    (h : headOk (xs ++ [c]) = true) : xs = [] ∨ headOk xs = true := by
  cases xs with
  | nil => exact Or.inl rfl
  | cons d u => exact Or.inr (by simpa [headOk] using h)

/-- Removing the first character preserves the absence of trailing
whitespace. -/
theorem noTrail_tail (c : Char) (t : List Char)
    (h : noTrailSpace (c :: t) = true) : noTrailSpace t = true := by
  unfold noTrailSpace at h ⊢
  rw [List.reverse_cons] at h
  rcases headOk_append_single t.reverse c h with h1 | h1
  · rw [h1]; rfl
  · exact h1

/-- The slash-stripping step preserves the absence of trailing
whitespace. -/
theorem noTrail_stripLeadSlash (l : List Char) (h : noTrailSpace l = true) :
    noTrailSpace (stripLeadSlash l) = true := by
  cases l with
  | nil => exact h
  | cons c t =>
    unfold stripLeadSlash
    by_cases hc : c = '/'
    · simpa [hc] using noTrail_tail c t h
    · simpa [hc] using h

/-- The dot-slash-stripping step preserves the absence of trailing
whitespace. -/
theorem noTrail_stripLeadDotSlash (l : List Char) (h : noTrailSpace l = true) :
    noTrailSpace (stripLeadDotSlash l) = true := by
  cases l with
  | nil => exact h
  | cons c t =>
    cases t with
    | nil => exact h
    | cons d u =>
      have hred : stripLeadDotSlash (c :: d :: u) =
          if (c = '.' && d = '/') = true then u else c :: d :: u := rfl
      rw [hred]
      by_cases hcd : (c = '.' && d = '/') = true
      · rw [if_pos hcd]
        exact noTrail_tail d u (noTrail_tail c (d :: u) h)
      · rw [if_neg hcd]
        exact h

/-- A normalized path never ends in whitespace. -/
theorem normPath_noTrail (l : List Char) : noTrailSpace (normPath l) = true :=
  noTrail_stripLeadDotSlash _ (noTrail_stripLeadSlash _ (pyStrip_noTrail l))

/-- On paths with a clean head, the badness of the path after both strip
steps is exactly the stacked-lead condition on the path itself. -/
theorem startsBad_norm_eq_stacked (s : List Char) (h : headOk s = true) :
    startsBad (stripLeadDotSlash (stripLeadSlash s)) = hasStackedLead s := by
  cases s with
  | nil => rfl
  | cons c t =>
    have hsl : stripLeadSlash (c :: t) = if c = '/' then t else c :: t := rfl
    have hstack : hasStackedLead (c :: t) =
        if c = '/' then startsBad (stripLeadDotSlash t)
        else if (c = '.' && headIs '/' t) = true then startsBad t.tail
        else false := rfl
    rw [hsl, hstack]
    by_cases hc : c = '/'
    · rw [if_pos hc, if_pos hc]
    · rw [if_neg hc, if_neg hc]
      by_cases hd : (c = '.' && headIs '/' t) = true
      · rw [if_pos hd]
        have hpair := (Bool.and_eq_true _ _).mp hd
        have hc' : c = '.' := of_decide_eq_true hpair.1
        cases t with
        | nil => simp [headIs] at hpair
        | cons d u =>
          have hd' : d = '/' := by simpa [headIs] using hpair.2
          subst hc'
          subst hd'
          have h1 : stripLeadDotSlash ('.' :: '/' :: u) = u := by
            have h2 : stripLeadDotSlash ('.' :: '/' :: u) =
                if ('.' = '.' && '/' = '/') = true then u else '.' :: '/' :: u := rfl
            rw [h2]
            simp
          rw [h1]
          rfl
      · rw [if_neg hd]
        have hws : isPySpace c = false := by simpa [headOk] using h
        cases t with
        | nil =>
          have h1 : startsBad (stripLeadDotSlash [c]) =
              (isPySpace c || decide (c = '/') || (decide (c = '.') && headIs '/' ([] : List Char))) := rfl
          rw [h1]
          simp [hws, hc, headIs]
        | cons d u =>
          have hdu : (decide (c = '.') && decide (d = '/')) = false := by
            by_cases h1 : c = '.'
            · by_cases h2 : d = '/'
              · exact absurd (by simp [h1, h2, headIs]) hd
              · simp [h2]
            · simp [h1]
          have h1 : stripLeadDotSlash (c :: d :: u) =
              if (c = '.' && d = '/') = true then u else c :: d :: u := rfl
          rw [h1, if_neg (by simp [hdu])]
          have h2 : startsBad (c :: d :: u) =
              (isPySpace c || decide (c = '/') || (decide (c = '.') && headIs '/' (d :: u))) := rfl
          rw [h2]
          have h3 : headIs '/' (d :: u) = decide (d = '/') := rfl
          rw [h3]
          simp [hws, hc, hdu]

/-- On paths with a clean head and no stacked lead, the two strip steps
produce a path that starts cleanly. -/
theorem startsBad_norm_false (s : List Char) (h : headOk s = true)
    (hs : hasStackedLead s = false) :
    startsBad (stripLeadDotSlash (stripLeadSlash s)) = false := by
  rw [startsBad_norm_eq_stacked s h]
  exact hs

/-- Stripping whitespace is the identity on a path that neither starts
badly nor ends in whitespace. -/
theorem pyStrip_id_of_clean (r : List Char) (h1 : startsBad r = false)
    (h2 : noTrailSpace r = true) : pyStrip r = r := by
  have hhead : r.dropWhile isPySpace = r := by
    cases r with
    | nil => rfl
    | cons c t =>
      have : isPySpace c = false := by
        by_cases hws : isPySpace c
        · simp [startsBad, hws] at h1
        · simpa using hws
      exact List.dropWhile_cons_of_neg (by simp [this])
  have htail : r.reverse.dropWhile isPySpace = r.reverse := by
    unfold noTrailSpace at h2
    cases hr : r.reverse with
    | nil => simp [hr]
    | cons c t =>
      rw [hr] at h2
      have : isPySpace c = false := by simpa [headOk] using h2
      exact List.dropWhile_cons_of_neg (by simp [this])
  unfold pyStrip
  rw [hhead, htail, List.reverse_reverse]

/-- The strip steps are the identity on a path that does not start
badly. -/
theorem strip_id_of_clean (r : List Char) (h1 : startsBad r = false) :
    stripLeadDotSlash (stripLeadSlash r) = r := by
  cases r with
  | nil => rfl
  | cons c t =>
    have hc : (c = '/') = False := by
      by_cases h : c = '/'
      · simp [startsBad, h] at h1
      · simpa using h
    rw [show stripLeadSlash (c :: t) = c :: t by simp [stripLeadSlash, hc]]
    cases t with
    | nil => rfl
    | cons d u =>
      have hcd : (c = '.' && d = '/') = false := by
        by_cases h3 : c = '.'
        · by_cases h4 : d = '/'
          · simp [startsBad, h3, h4, headIs] at h1
          · simp [h4]
        · simp [h3]
      simp [stripLeadDotSlash, hcd]

/-- Normalization is the identity on a clean path. -/
theorem normPath_id_of_clean (r : List Char) (h1 : startsBad r = false)
    (h2 : noTrailSpace r = true) : normPath r = r := by
  unfold normPath
  rw [pyStrip_id_of_clean r h1 h2, strip_id_of_clean r h1]

/-!
Helper lemmas about the agent loop.
-/

/-- A thinking-type event is neither of the two terminal events. -/
theorem ne_terminals_of_thinking {x : Event} (h : x.type = EvType.thinking) :
    x ≠ batchCompletedEvent ∧ x ≠ maxIterationsEvent := by
  constructor
  · intro he
    rw [he] at h
    exact EvType.noConfusion h
  · intro he
    rw [he] at h
    exact EvType.noConfusion h

/-- Structure of every loop outcome: either the iteration budget is
exhausted — no completion webhook fired and every event is a
thinking-type progress event — or one empty batch executed, exactly one
completion webhook with `success=True` fired, and the events end with
the synthetic completed event, all earlier ones being thinking-type.
The loop makes at most two LLM calls per remaining iteration, and at
least one when any iteration runs. -/
theorem loopW_shape (s : Script) (mi : Nat) :
    ∀ (fuel iterC calls : Nat) (rf : List (List Char)),
      (((loopW s mi fuel iterC calls rf).failed = true ∧
        (loopW s mi fuel iterC calls rf).completions = [] ∧
        ∀ x ∈ (loopW s mi fuel iterC calls rf).events,
          x.type = EvType.thinking ∧ x.errorType = none) ∨
       ((loopW s mi fuel iterC calls rf).failed = false ∧
        (loopW s mi fuel iterC calls rf).completions = [true] ∧
        ∃ evs, (loopW s mi fuel iterC calls rf).events =
            evs ++ [batchCompletedEvent] ∧
          ∀ x ∈ evs, x.type = EvType.thinking ∧ x.errorType = none)) ∧
      (loopW s mi fuel iterC calls rf).llmCalls ≤ 2 * fuel ∧
      (1 ≤ fuel → 1 ≤ (loopW s mi fuel iterC calls rf).llmCalls) := by
  intro fuel
  induction fuel with
  | zero =>
    intro iterC calls rf
    refine ⟨Or.inl ⟨rfl, rfl, ?_⟩, by simp [loopW], ?_⟩
    · intro x hx
      simp [loopW] at hx
    · intro hcon
      exact absurd hcon (by simp)
  | succ fuel ih =>
    intro iterC calls rf
    cases hllm : s.llm calls with
    | error err =>
      have hred : loopW s mi (fuel + 1) iterC calls rf =
          { events := thinkingEvent (iterC + 1) ::
              (loopW s mi fuel (iterC + 1) (calls + 1) rf).events,
            llmCalls := (loopW s mi fuel (iterC + 1) (calls + 1) rf).llmCalls + 1,
            completions := (loopW s mi fuel (iterC + 1) (calls + 1) rf).completions,
            failed := (loopW s mi fuel (iterC + 1) (calls + 1) rf).failed } := by
        simp [loopW, hllm]
      obtain ⟨hsh, hle, -⟩ := ih (iterC + 1) (calls + 1) rf
      rw [hred]
      refine ⟨?_, ?_, ?_⟩
      · rcases hsh with ⟨h1, h2, h3⟩ | ⟨h1, h2, h3⟩
        · left
          refine ⟨h1, h2, ?_⟩
          intro x hx
          simp only [List.mem_cons] at hx
          rcases hx with rfl | hx
          · exact ⟨rfl, rfl⟩
          · exact h3 x hx
        · right
          obtain ⟨evs, he1, he3⟩ := h3
          refine ⟨h1, h2, thinkingEvent (iterC + 1) :: evs, ?_, ?_⟩
          · show thinkingEvent (iterC + 1) ::
              (loopW s mi fuel (iterC + 1) (calls + 1) rf).events =
              (thinkingEvent (iterC + 1) :: evs) ++ [batchCompletedEvent]
            rw [he1]
            rfl
          · intro x hx
            simp only [List.mem_cons] at hx
            rcases hx with rfl | hx
            · exact ⟨rfl, rfl⟩
            · exact he3 x hx
      · show (loopW s mi fuel (iterC + 1) (calls + 1) rf).llmCalls + 1 ≤ 2 * (fuel + 1)
        omega
      · intro hcon
        show 1 ≤ (loopW s mi fuel (iterC + 1) (calls + 1) rf).llmCalls + 1
        omega
    | ok d =>
      by_cases hth : d.thinking = false
      · cases hba : d.actions with
        | nil =>
          have hred : loopW s mi (fuel + 1) iterC calls rf =
              { events := [thinkingEvent (iterC + 1), readyEvent, batchCompletedEvent],
                llmCalls := 1, completions := [true], failed := false } := by
            simp [loopW, hllm, hth, hba, execBatch]
          rw [hred]
          refine ⟨Or.inr ⟨rfl, rfl, [thinkingEvent (iterC + 1), readyEvent], rfl, ?_⟩,
            by show (1 : Nat) ≤ 2 * (fuel + 1); omega,
            fun _ => by show (1 : Nat) ≤ 1; omega⟩
          intro x hx
          simp only [List.mem_cons] at hx
          rcases hx with rfl | hx
          · exact ⟨rfl, rfl⟩
          · simp at hx
            rw [hx]
            exact ⟨rfl, rfl⟩
        | cons a rest =>
          have hred : loopW s mi (fuel + 1) iterC calls rf =
              { events := thinkingEvent (iterC + 1) :: readyEvent ::
                  (loopW s mi fuel (iterC + 1) (calls + 1) rf).events,
                llmCalls := (loopW s mi fuel (iterC + 1) (calls + 1) rf).llmCalls + 1,
                completions := (loopW s mi fuel (iterC + 1) (calls + 1) rf).completions,
                failed := (loopW s mi fuel (iterC + 1) (calls + 1) rf).failed } := by
            simp [loopW, hllm, hth, hba, execBatch]
          obtain ⟨hsh, hle, -⟩ := ih (iterC + 1) (calls + 1) rf
          rw [hred]
          refine ⟨?_, ?_, ?_⟩
          · rcases hsh with ⟨h1, h2, h3⟩ | ⟨h1, h2, h3⟩
            · left
              refine ⟨h1, h2, ?_⟩
              intro x hx
              simp only [List.mem_cons] at hx
              rcases hx with rfl | rfl | hx
              · exact ⟨rfl, rfl⟩
              · exact ⟨rfl, rfl⟩
              · exact h3 x hx
            · right
              obtain ⟨evs, he1, he3⟩ := h3
              refine ⟨h1, h2, thinkingEvent (iterC + 1) :: readyEvent :: evs, ?_, ?_⟩
              · show thinkingEvent (iterC + 1) :: readyEvent ::
                  (loopW s mi fuel (iterC + 1) (calls + 1) rf).events =
                  (thinkingEvent (iterC + 1) :: readyEvent :: evs) ++
                    [batchCompletedEvent]
                rw [he1]
                rfl
              · intro x hx
                simp only [List.mem_cons] at hx
                rcases hx with rfl | rfl | hx
                · exact ⟨rfl, rfl⟩
                · exact ⟨rfl, rfl⟩
                · exact he3 x hx
          · show (loopW s mi fuel (iterC + 1) (calls + 1) rf).llmCalls + 1 ≤ 2 * (fuel + 1)
            omega
          · intro hcon
            show 1 ≤ (loopW s mi fuel (iterC + 1) (calls + 1) rf).llmCalls + 1
            omega
      · cases hba : d.actions with
        | cons a rest =>
          have hred : loopW s mi (fuel + 1) iterC calls rf =
              { events := thinkingEvent (iterC + 1) ::
                  (loopW s mi fuel (iterC + 1) (calls + 1) rf).events,
                llmCalls := (loopW s mi fuel (iterC + 1) (calls + 1) rf).llmCalls + 1,
                completions := (loopW s mi fuel (iterC + 1) (calls + 1) rf).completions,
                failed := (loopW s mi fuel (iterC + 1) (calls + 1) rf).failed } := by
            simp [loopW, hllm, hth, hba, shouldForce]
          obtain ⟨hsh, hle, -⟩ := ih (iterC + 1) (calls + 1) rf
          rw [hred]
          refine ⟨?_, ?_, ?_⟩
          · rcases hsh with ⟨h1, h2, h3⟩ | ⟨h1, h2, h3⟩
            · left
              refine ⟨h1, h2, ?_⟩
              intro x hx
              simp only [List.mem_cons] at hx
              rcases hx with rfl | hx
              · exact ⟨rfl, rfl⟩
              · exact h3 x hx
            · right
              obtain ⟨evs, he1, he3⟩ := h3
              refine ⟨h1, h2, thinkingEvent (iterC + 1) :: evs, ?_, ?_⟩
              · show thinkingEvent (iterC + 1) ::
                  (loopW s mi fuel (iterC + 1) (calls + 1) rf).events =
                  (thinkingEvent (iterC + 1) :: evs) ++ [batchCompletedEvent]
                rw [he1]
                rfl
              · intro x hx
                simp only [List.mem_cons] at hx
                rcases hx with rfl | hx
                · exact ⟨rfl, rfl⟩
                · exact he3 x hx
          · show (loopW s mi fuel (iterC + 1) (calls + 1) rf).llmCalls + 1 ≤ 2 * (fuel + 1)
            omega
          · intro hcon
            show 1 ≤ (loopW s mi fuel (iterC + 1) (calls + 1) rf).llmCalls + 1
            omega
        | nil =>
          by_cases hthr : forceThreshold mi ≤ iterC + 1
          · have hdec : decide (forceThreshold mi ≤ iterC + 1) = true :=
              decide_eq_true hthr
            cases hllm2 : s.llm (calls + 1) with
            | error err2 =>
              have hred : loopW s mi (fuel + 1) iterC calls rf =
                  { events := thinkingEvent (iterC + 1) :: forcingEvent ::
                      (loopW s mi fuel (iterC + 1) (calls + 2) rf).events,
                    llmCalls :=
                      (loopW s mi fuel (iterC + 1) (calls + 2) rf).llmCalls + 2,
                    completions :=
                      (loopW s mi fuel (iterC + 1) (calls + 2) rf).completions,
                    failed := (loopW s mi fuel (iterC + 1) (calls + 2) rf).failed } := by
                simp [loopW, hllm, hth, hba, shouldForce, duplicateReads, hdec, hllm2]
              obtain ⟨hsh, hle, -⟩ := ih (iterC + 1) (calls + 2) rf
              rw [hred]
              refine ⟨?_, ?_, ?_⟩
              · rcases hsh with ⟨h1, h2, h3⟩ | ⟨h1, h2, h3⟩
                · left
                  refine ⟨h1, h2, ?_⟩
                  intro x hx
                  simp only [List.mem_cons] at hx
                  rcases hx with rfl | rfl | hx
                  · exact ⟨rfl, rfl⟩
                  · exact ⟨rfl, rfl⟩
                  · exact h3 x hx
                · right
                  obtain ⟨evs, he1, he3⟩ := h3
                  refine ⟨h1, h2, thinkingEvent (iterC + 1) :: forcingEvent :: evs,
                    ?_, ?_⟩
                  · show thinkingEvent (iterC + 1) :: forcingEvent ::
                      (loopW s mi fuel (iterC + 1) (calls + 2) rf).events =
                      (thinkingEvent (iterC + 1) :: forcingEvent :: evs) ++
                        [batchCompletedEvent]
                    rw [he1]
                    rfl
                  · intro x hx
                    simp only [List.mem_cons] at hx
                    rcases hx with rfl | rfl | hx
                    · exact ⟨rfl, rfl⟩
                    · exact ⟨rfl, rfl⟩
                    · exact he3 x hx
              · show (loopW s mi fuel (iterC + 1) (calls + 2) rf).llmCalls + 2 ≤
                  2 * (fuel + 1)
                omega
              · intro hcon
                show 1 ≤ (loopW s mi fuel (iterC + 1) (calls + 2) rf).llmCalls + 2
                omega
            | ok d2 =>
              cases hba2 : d2.actions with
              | nil =>
                have hred : loopW s mi (fuel + 1) iterC calls rf =
                    { events := [thinkingEvent (iterC + 1), forcingEvent,
                        batchCompletedEvent],
                      llmCalls := 2, completions := [true], failed := false } := by
                  simp [loopW, hllm, hth, hba, shouldForce, duplicateReads, hdec,
                    hllm2, hba2, execBatch]
                rw [hred]
                refine ⟨Or.inr ⟨rfl, rfl, [thinkingEvent (iterC + 1), forcingEvent],
                  rfl, ?_⟩, by show (2 : Nat) ≤ 2 * (fuel + 1); omega,
                  fun _ => by show (1 : Nat) ≤ 2; omega⟩
                intro x hx
                simp only [List.mem_cons] at hx
                rcases hx with rfl | hx
                · exact ⟨rfl, rfl⟩
                · simp at hx
                  rw [hx]
                  exact ⟨rfl, rfl⟩
              | cons a2 rest2 =>
                have hred : loopW s mi (fuel + 1) iterC calls rf =
                    { events := thinkingEvent (iterC + 1) :: forcingEvent ::
                        (loopW s mi fuel (iterC + 1) (calls + 2) rf).events,
                      llmCalls :=
                        (loopW s mi fuel (iterC + 1) (calls + 2) rf).llmCalls + 2,
                      completions :=
                        (loopW s mi fuel (iterC + 1) (calls + 2) rf).completions,
                      failed :=
                        (loopW s mi fuel (iterC + 1) (calls + 2) rf).failed } := by
                  simp [loopW, hllm, hth, hba, shouldForce, duplicateReads, hdec,
                    hllm2, hba2, execBatch]
                obtain ⟨hsh, hle, -⟩ := ih (iterC + 1) (calls + 2) rf
                rw [hred]
                refine ⟨?_, ?_, ?_⟩
                · rcases hsh with ⟨h1, h2, h3⟩ | ⟨h1, h2, h3⟩
                  · left
                    refine ⟨h1, h2, ?_⟩
                    intro x hx
                    simp only [List.mem_cons] at hx
                    rcases hx with rfl | rfl | hx
                    · exact ⟨rfl, rfl⟩
                    · exact ⟨rfl, rfl⟩
                    · exact h3 x hx
                  · right
                    obtain ⟨evs, he1, he3⟩ := h3
                    refine ⟨h1, h2, thinkingEvent (iterC + 1) :: forcingEvent :: evs,
                      ?_, ?_⟩
                    · show thinkingEvent (iterC + 1) :: forcingEvent ::
                        (loopW s mi fuel (iterC + 1) (calls + 2) rf).events =
                        (thinkingEvent (iterC + 1) :: forcingEvent :: evs) ++
                          [batchCompletedEvent]
                      rw [he1]
                      rfl
                    · intro x hx
                      simp only [List.mem_cons] at hx
                      rcases hx with rfl | rfl | hx
                      · exact ⟨rfl, rfl⟩
                      · exact ⟨rfl, rfl⟩
                      · exact he3 x hx
                · show (loopW s mi fuel (iterC + 1) (calls + 2) rf).llmCalls + 2 ≤
                    2 * (fuel + 1)
                  omega
                · intro hcon
                  show 1 ≤ (loopW s mi fuel (iterC + 1) (calls + 2) rf).llmCalls + 2
                  omega
          · have hdec : decide (forceThreshold mi ≤ iterC + 1) = false :=
              decide_eq_false hthr
            have hred : loopW s mi (fuel + 1) iterC calls rf =
                { events := thinkingEvent (iterC + 1) ::
                    (loopW s mi fuel (iterC + 1) (calls + 1) rf).events,
                  llmCalls := (loopW s mi fuel (iterC + 1) (calls + 1) rf).llmCalls + 1,
                  completions := (loopW s mi fuel (iterC + 1) (calls + 1) rf).completions,
                  failed := (loopW s mi fuel (iterC + 1) (calls + 1) rf).failed } := by
              simp [loopW, hllm, hth, hba, shouldForce, duplicateReads, hdec]
            obtain ⟨hsh, hle, -⟩ := ih (iterC + 1) (calls + 1) rf
            rw [hred]
            refine ⟨?_, ?_, ?_⟩
            · rcases hsh with ⟨h1, h2, h3⟩ | ⟨h1, h2, h3⟩
              · left
                refine ⟨h1, h2, ?_⟩
                intro x hx
                simp only [List.mem_cons] at hx
                rcases hx with rfl | hx
                · exact ⟨rfl, rfl⟩
                · exact h3 x hx
              · right
                obtain ⟨evs, he1, he3⟩ := h3
                refine ⟨h1, h2, thinkingEvent (iterC + 1) :: evs, ?_, ?_⟩
                · show thinkingEvent (iterC + 1) ::
                    (loopW s mi fuel (iterC + 1) (calls + 1) rf).events =
                    (thinkingEvent (iterC + 1) :: evs) ++ [batchCompletedEvent]
                  rw [he1]
                  rfl
                · intro x hx
                  simp only [List.mem_cons] at hx
                  rcases hx with rfl | hx
                  · exact ⟨rfl, rfl⟩
                  · exact he3 x hx
            · show (loopW s mi fuel (iterC + 1) (calls + 1) rf).llmCalls + 1 ≤
                2 * (fuel + 1)
              omega
            · intro hcon
              show 1 ≤ (loopW s mi fuel (iterC + 1) (calls + 1) rf).llmCalls + 1
              omega

/-- The classified-processing error count of a run is one exactly when
the iteration budget was exhausted. -/
theorem runAgent_procErr (mi : Nat) (s : Script) :
    (runAgent mi s).events.countP
      (fun e => decide (e.errorType = some "processing")) =
      if (runAgent mi s).failed = true then 1 else 0 := by
  obtain ⟨hsh, -, -⟩ := loopW_shape s mi mi 0 0 []
  have hfe : (runAgent mi s).failed = (loopW s mi mi 0 0 []).failed := rfl
  rcases hsh with ⟨h1, h2, h3⟩ | ⟨h1, h2, h3⟩
  · have hev : (runAgent mi s).events =
        analyzingEvent :: ((loopW s mi mi 0 0 []).events ++ [maxIterationsEvent]) := by
      show analyzingEvent :: ((loopW s mi mi 0 0 []).events ++
        if (loopW s mi mi 0 0 []).failed then [maxIterationsEvent] else []) = _
      rw [h1]
      rfl
    rw [hfe, h1, hev, List.countP_cons, List.countP_append]
    have hz : (loopW s mi mi 0 0 []).events.countP
        (fun e => decide (e.errorType = some "processing")) = 0 := by
      rw [List.countP_eq_zero]
      intro x hx
      have hx2 := (h3 x hx).2
      simp [hx2]
    rw [hz]
    simp [analyzingEvent, maxIterationsEvent, List.countP_cons]
  · obtain ⟨evs, he1, he3⟩ := h3
    have hev : (runAgent mi s).events =
        analyzingEvent :: (loopW s mi mi 0 0 []).events := by
      show analyzingEvent :: ((loopW s mi mi 0 0 []).events ++
        if (loopW s mi mi 0 0 []).failed then [maxIterationsEvent] else []) = _
      rw [h1]
      simp
    rw [hfe, h1, hev, he1, List.countP_cons, List.countP_append]
    have hz : evs.countP (fun e => decide (e.errorType = some "processing")) = 0 := by
      rw [List.countP_eq_zero]
      intro x hx
      have hx2 := (he3 x hx).2
      simp [hx2]
    rw [hz]
    simp [analyzingEvent, batchCompletedEvent, List.countP_cons]

/-- With every reply parsing to thinking mode, a loop with at least two
iterations of budget makes at least two LLM calls: the first iteration
either recurses after one or two calls, or terminates through a forced
empty batch after exactly two. -/
theorem loopW_two_calls (s : Script) (mi : Nat)
    (h : ∀ k, ∃ d, s.llm k = Except.ok d ∧ d.thinking = true)
    (fuel iterC calls : Nat) (rf : List (List Char)) (hf : 2 ≤ fuel) :
    2 ≤ (loopW s mi fuel iterC calls rf).llmCalls := by
  obtain ⟨fuel2, rfl⟩ : ∃ f, fuel = f + 1 := ⟨fuel - 1, by omega⟩
  obtain ⟨d, hd, ht⟩ := h calls
  have hth : ¬ d.thinking = false := by
    rw [ht]
    simp
  have hone : ∀ c2, 1 ≤ (loopW s mi fuel2 (iterC + 1) c2 rf).llmCalls :=
    fun c2 => (loopW_shape s mi fuel2 (iterC + 1) c2 rf).2.2 (by omega)
  cases hba : d.actions with
  | cons a rest =>
    have hred : (loopW s mi (fuel2 + 1) iterC calls rf).llmCalls =
        (loopW s mi fuel2 (iterC + 1) (calls + 1) rf).llmCalls + 1 := by
      simp [loopW, hd, hth, hba, shouldForce]
    rw [hred]
    have := hone (calls + 1)
    omega
  | nil =>
    by_cases hthr : forceThreshold mi ≤ iterC + 1
    · have hdec : decide (forceThreshold mi ≤ iterC + 1) = true :=
        decide_eq_true hthr
      obtain ⟨d2, hd2, ht2⟩ := h (calls + 1)
      cases hba2 : d2.actions with
      | nil =>
        have hred : (loopW s mi (fuel2 + 1) iterC calls rf).llmCalls = 2 := by
          simp [loopW, hd, hth, hba, shouldForce, duplicateReads, hdec, hd2, hba2,
            execBatch]
        omega
      | cons a2 rest2 =>
        have hred : (loopW s mi (fuel2 + 1) iterC calls rf).llmCalls =
            (loopW s mi fuel2 (iterC + 1) (calls + 2) rf).llmCalls + 2 := by
          simp [loopW, hd, hth, hba, shouldForce, duplicateReads, hdec, hd2, hba2,
            execBatch]
        rw [hred]
        omega
    · have hdec : decide (forceThreshold mi ≤ iterC + 1) = false :=
        decide_eq_false hthr
      have hred : (loopW s mi (fuel2 + 1) iterC calls rf).llmCalls =
          (loopW s mi fuel2 (iterC + 1) (calls + 1) rf).llmCalls + 1 := by
        simp [loopW, hd, hth, hba, shouldForce, duplicateReads, hdec]
      rw [hred]
      have := hone (calls + 1)
      omega

/-!
Claim theorems.
-/

/-- C3, code bug.  The claimed first-failure discipline never runs:
`_execute_actions` evaluates `action.action.value` (`agent.py:192`)
before its first yield, so any non-empty batch — here the two-action
batch from the batch-abort example of the spec — raises
`AttributeError` and emits no pending event and no error event at all.
The stop-on-first-failure code below that line (`agent.py:194-251`) is
unreachable, and the executor tests asserting real dispatch cannot
pass, so the claim states the evident intent and the `.value` access is
the slip. -/
theorem c3_theorem :
    execBatch [failingAction, secondBatchAction] =
      Except.error attributeErrorMsg ∧
    ∀ (a : Action) (rest : List Action),
      execBatch (a :: rest) = Except.error attributeErrorMsg :=
  ⟨rfl, fun _ _ => rfl⟩

/-- C2, counterexample.  With an empty reply at iteration 2 of a
3-iteration budget the code transitions to forced execution while the
claimed condition — three duplicate reads or the ceiling threshold —
does not hold; and on a reply with three duplicate reads, where the
claimed condition does hold, `_should_force_execution` raises instead
of transitioning. -/
theorem c2_counterexample :
    (shouldForce [] [] 2 3 = Except.ok true ∧
      claimedForceCondition [] [] 2 3 = false) ∧
    (claimedForceCondition [dupReadAction, dupReadAction, dupReadAction]
        ["x".toList] 1 100 = true ∧
      shouldForce [dupReadAction, dupReadAction, dupReadAction]
        ["x".toList] 1 100 = Except.error attributeErrorMsg) :=
  ⟨⟨rfl, by decide⟩, ⟨by decide, rfl⟩⟩

/-- C2, amended.  A thinking reply with a non-empty actions list — in
particular one with three duplicate reads — never transitions to forced
execution: the duplicate-reads comprehension raises `AttributeError`.
Only a reply with no actions can transition, exactly when the iteration
count has reached `floor(0.8 * maxIterations)` (the Python `int`
truncation, not the ceiling). -/
theorem c2_amended (rf : List (List Char)) (i m : Nat)
    (a : Action) (rest : List Action) :
    (shouldForce [] rf i m = Except.ok true ↔ 4 * m / 5 ≤ i) ∧
    shouldForce (a :: rest) rf i m = Except.error attributeErrorMsg := by
  constructor
  · simp [shouldForce, duplicateReads, forceThreshold]
  · rfl

/-- C7, counterexample.  The normalized path of an action whose path is
`//a` still starts with a slash, contradicting the claim that normalized
paths never start with `/`. -/
theorem c7_counterexample :
    startsWithL ['/'] ((normalizeAction doubleSlashAction).filePath) = true := by
  decide

/-- C7, amended.  A normalized path never ends in whitespace, and it has
no leading whitespace, leading slash or leading `./` provided the
whitespace-stripped input path does not stack one strippable lead over
another (as `//a`, `./ x` or `/.//b` do). -/
theorem c7_amended (a : Action) :
    noTrailSpace (normalizeAction a).filePath = true ∧
      (hasStackedLead (pyStrip a.filePath) = false →
        startsBad (normalizeAction a).filePath = false) := by
  constructor
  · exact normPath_noTrail a.filePath
  · intro h
    show startsBad (normPath a.filePath) = false
    unfold normPath
    exact startsBad_norm_false _ (pyStrip_headOk _) h

/-- C7, witness for the amended theorem at a concrete messy path. -/
theorem c7_amended_witness :
    hasStackedLead (pyStrip spacedPathAction.filePath) = false ∧
      startsBad (normalizeAction spacedPathAction).filePath = false ∧
      noTrailSpace (normalizeAction spacedPathAction).filePath = true :=
  ⟨by decide, (c7_amended spacedPathAction).2 (by decide), (c7_amended spacedPathAction).1⟩

/-- C8, counterexample.  Normalization is not idempotent on the path
`./ x`: the first round leaves ` x`, the second strips the space. -/
theorem c8_counterexample :
    normalizeAction (normalizeAction dotSlashSpaceAction) ≠
      normalizeAction dotSlashSpaceAction := by
  decide

/-- C8, amended.  Normalization is idempotent on every action whose
whitespace-stripped path does not stack one strippable lead over
another. -/
theorem c8_amended (a : Action)
    (h : hasStackedLead (pyStrip a.filePath) = false) :
    normalizeAction (normalizeAction a) = normalizeAction a := by
  have hb : startsBad (normPath a.filePath) = false := by
    unfold normPath
    exact startsBad_norm_false _ (pyStrip_headOk _) h
  have ht : noTrailSpace (normPath a.filePath) = true := normPath_noTrail _
  have h1 : normalizeAction a =
      { action := a.action, filePath := normPath a.filePath, content := a.content,
        matchS := a.matchS, message := if a.message = "" then "" else a.message } := rfl
  rw [h1]
  have h2 : normalizeAction
      { action := a.action, filePath := normPath a.filePath, content := a.content,
        matchS := a.matchS, message := if a.message = "" then "" else a.message } =
      { action := a.action, filePath := normPath (normPath a.filePath),
        content := a.content, matchS := a.matchS,
        message := if (if a.message = "" then "" else a.message) = "" then ""
                   else (if a.message = "" then "" else a.message) } := rfl
  rw [h2, normPath_id_of_clean _ hb ht]
  by_cases hm : a.message = "" <;> simp [hm]

/-- C8, witness for the amended theorem at a concrete messy path. -/
theorem c8_amended_witness :
    normalizeAction (normalizeAction spacedPathAction) =
      normalizeAction spacedPathAction :=
  c8_amended spacedPathAction (by decide)

/-- C9, confirmed.  An `editFile` or `createFile` action whose content is
absent or empty makes `execute_action` return `False` without invoking
any tool.  In the source this outcome is forced even before the
falsy-content guard of `_execute_tool_action` (which would reject the
empty string like a missing content): the `AttributeError` at
`core/actions.py:32` precedes `get_tool`, so at these inputs the source
returns `False` with no tool invocation, exactly as claimed. -/
theorem c9_theorem (fs : ToolFS) (root : List Char) (a : Action)
    (h1 : a.action = ActionType.editFile ∨ a.action = ActionType.createFile)
    (h2 : a.content = none ∨ a.content = some "") :
    executeAction fs root a = (false, []) :=
  rfl

/-- C9, witness at a concrete empty-content create action. -/
theorem c9_witness :
    executeAction allOkFS "proj".toList emptyContentAction = (false, []) :=
  c9_theorem allOkFS "proj".toList emptyContentAction (Or.inr rfl) (Or.inr rfl)

/-- C10, code bug.  A search action dispatched through the executor
never reaches the search tool: `execute_action` raises `AttributeError`
at `core/actions.py:32` and returns `False` with no tool invocation.
Had the dispatch code below been reachable, it would call
`SearchTool.execute` with only the query and no listing, which returns
success with the fixed four-path mock list for any term — the behavior
the claim (and the executor tests) describe. -/
theorem c10_theorem :
    executeAction allOkFS ("proj".toList) searchAction = (false, []) ∧
    searchToolExecute ("button".toList) none =
      { success := true, files := mockSearchFiles } :=
  ⟨rfl, rfl⟩

/-- C6, confirmed.  Parsing never raises on decoded JSON: it returns a
decision whose `thinking` defaults to `true` when the field is absent and
is the truthiness of the field when present, and whose actions are
exactly the entries of the `actions` array that construct a valid
`Action`; only a JSON decode error raises. -/
theorem c6_theorem :
    (∀ v : Json, ∃ d : Decision, parseAgentResponse (.ok v) = .ok d ∧
      (∀ fields, v = .obj fields → jsonGet fields "thinking" = none →
        d.thinking = true) ∧
      (∀ fields t, v = .obj fields → jsonGet fields "thinking" = some t →
        d.thinking = pyTruthy t) ∧
      (∀ fields entries, v = .obj fields →
        jsonGet fields "actions" = some (.arr entries) →
        d.actions = entries.filterMap mkAction)) ∧
    (∀ e : String, ∃ msg : String, parseAgentResponse (.error e) = .error msg) := by
  constructor
  · intro v
    refine ⟨_, rfl, ?_, ?_, ?_⟩
    · intro fields hv h2
      subst hv
      show (match jsonGet fields "thinking" with
            | some t => pyTruthy t
            | none => true) = true
      rw [h2]
    · intro fields t hv h2
      subst hv
      show (match jsonGet fields "thinking" with
            | some t => pyTruthy t
            | none => true) = pyTruthy t
      rw [h2]
    · intro fields entries hv h2
      subst hv
      show (match jsonGet fields "actions" with
            | some (.arr es) => es.filterMap mkAction
            | _ => []) = entries.filterMap mkAction
      rw [h2]
  · intro e
    exact ⟨_, rfl⟩

/-- C6, witness: a reply with one valid and one malformed action entry
parses without raising, takes its explicit `thinking` flag, and keeps
exactly the valid entries; a decode error raises. -/
theorem c6_witness :
    ∃ d : Decision, parseAgentResponse (.ok mixedReply) = .ok d ∧
      d.thinking = pyTruthy (.bool false) ∧
      d.actions = [goodActionEntry, badActionEntry].filterMap mkAction ∧
      ∃ msg : String, parseAgentResponse (.error "bad json") = .error msg := by
  obtain ⟨d, h1, _, h3, h4⟩ := c6_theorem.1 mixedReply
  exact ⟨d, h1, h3 _ (.bool false) rfl rfl, h4 _ _ rfl rfl,
    c6_theorem.2 "bad json"⟩

/-- C1, counterexample.  With `maxIterations = 2` and every reply
parsing to `thinking = true` with no actions, the run performs 2 LLM
calls but emits no error event at all: `int(2 * 0.8) = 1`, so forced
execution fires at the very first iteration, the forced empty batch
executes, and the run completes instead of failing with
`MaxIterationsExceeded`. -/
theorem c1_counterexample :
    (runAgent 2 alwaysThinkingScript).llmCalls = 2 ∧
    (runAgent 2 alwaysThinkingScript).events.countP
      (fun e => decide (e.status = EvStatus.error)) = 0 ∧
    (runAgent 2 alwaysThinkingScript).failed = false := by
  decide

/-- C1, amended.  A run with `maxIterations = 2` whose every LLM reply
parses to `thinking = true` performs between 2 and 4 LLM calls — not at
most 2, since each forced-execution attempt adds a second call — and it
ends with exactly one `Processing` classified error event precisely
when it exhausts the budget; when a forced call returns an empty
actions list the run instead ends without any error event, with the
completion webhook fired.  (A reply that carries actions never
executes them: the `AttributeError` on the plain-string `action` field
aborts its iteration.) -/
theorem c1_amended (s : Script)
    (h : ∀ k, ∃ d, s.llm k = Except.ok d ∧ d.thinking = true) :
    2 ≤ (runAgent 2 s).llmCalls ∧ (runAgent 2 s).llmCalls ≤ 4 ∧
    ((runAgent 2 s).events.countP
        (fun e => decide (e.errorType = some "processing")) =
      if (runAgent 2 s).failed = true then 1 else 0) ∧
    ((runAgent 2 s).failed = false → (runAgent 2 s).completions = [true]) := by
  refine ⟨?_, ?_, runAgent_procErr 2 s, ?_⟩
  · show 2 ≤ (loopW s 2 2 0 0 []).llmCalls
    exact loopW_two_calls s 2 h 2 0 0 [] (by omega)
  · show (loopW s 2 2 0 0 []).llmCalls ≤ 4
    have hle := (loopW_shape s 2 2 0 0 []).2.1
    omega
  · intro hf
    rcases (loopW_shape s 2 2 0 0 []).1 with ⟨h1, -, -⟩ | ⟨-, h2, -⟩
    · rw [show (runAgent 2 s).failed = (loopW s 2 2 0 0 []).failed from rfl, h1] at hf
      exact Bool.noConfusion hf
    · exact h2

/-- C1, witness for the amended theorem at the always-thinking script. -/
theorem c1_amended_witness :
    2 ≤ (runAgent 2 alwaysThinkingScript).llmCalls ∧
    (runAgent 2 alwaysThinkingScript).llmCalls ≤ 4 ∧
    ((runAgent 2 alwaysThinkingScript).events.countP
        (fun e => decide (e.errorType = some "processing")) =
      if (runAgent 2 alwaysThinkingScript).failed = true then 1 else 0) ∧
    ((runAgent 2 alwaysThinkingScript).failed = false →
      (runAgent 2 alwaysThinkingScript).completions = [true]) :=
  c1_amended alwaysThinkingScript
    (fun _ => ⟨{ thinking := true, actions := [] }, rfl, rfl⟩)

/-- C4, confirmed.  The synthetic completed event and the `success=True`
completion webhook occur exactly on success of the whole batch, and
only together: a batch succeeds exactly when it is empty, a non-empty
batch raises before any event so neither the completed event nor the
webhook occurs (the iteration is abandoned and the webhook call is
skipped), and at run level the webhook list is `[true]` precisely when
the synthetic completed event was emitted. -/
theorem c4_theorem (mi : Nat) (s : Script) :
    ((runAgent mi s).completions = [true] ↔
      batchCompletedEvent ∈ (runAgent mi s).events) ∧
    ((runAgent mi s).completions = [true] ∨ (runAgent mi s).completions = []) ∧
    execBatch [] = Except.ok [batchCompletedEvent] ∧
    (∀ (a : Action) (rest : List Action),
      execBatch (a :: rest) = Except.error attributeErrorMsg) := by
  have hc : (runAgent mi s).completions = (loopW s mi mi 0 0 []).completions := rfl
  rcases (loopW_shape s mi mi 0 0 []).1 with ⟨h1, h2, h3⟩ | ⟨h1, h2, h3⟩
  · have hev : (runAgent mi s).events =
        analyzingEvent :: ((loopW s mi mi 0 0 []).events ++ [maxIterationsEvent]) := by
      show analyzingEvent :: ((loopW s mi mi 0 0 []).events ++
        if (loopW s mi mi 0 0 []).failed then [maxIterationsEvent] else []) = _
      rw [h1]
      rfl
    refine ⟨?_, Or.inr (hc.trans h2), rfl, fun _ _ => rfl⟩
    rw [hc, h2, hev]
    constructor
    · intro hcon
      exact List.noConfusion hcon
    · intro hmem
      exfalso
      simp only [List.mem_cons, List.mem_append] at hmem
      rcases hmem with he | he | he | he
      · exact (ne_terminals_of_thinking
          (show analyzingEvent.type = EvType.thinking from rfl)).1 he.symm
      · exact (ne_terminals_of_thinking (h3 _ he).1).1 rfl
      · exact EvType.noConfusion (congrArg Event.type he)
      · exact absurd he (List.not_mem_nil _)
  · obtain ⟨evs, he1, he3⟩ := h3
    have hev : (runAgent mi s).events =
        analyzingEvent :: (loopW s mi mi 0 0 []).events := by
      show analyzingEvent :: ((loopW s mi mi 0 0 []).events ++
        if (loopW s mi mi 0 0 []).failed then [maxIterationsEvent] else []) = _
      rw [h1]
      simp
    refine ⟨?_, Or.inl (hc.trans h2), rfl, fun _ _ => rfl⟩
    rw [hc, h2, hev, he1]
    constructor
    · intro _
      simp
    · intro _
      rfl

/-- C5, confirmed.  The event stream of every run ends with exactly one
terminal marker — the synthetic completed event or the classified fatal
error event — and no events follow it: per-action error events are
never emitted (non-empty batches raise before yielding), so the two
claimed terminal markers are exhaustive. -/
theorem c5_theorem (mi : Nat) (s : Script) :
    ∃ evs e, (runAgent mi s).events = evs ++ [e] ∧
      (e = batchCompletedEvent ∨ e = maxIterationsEvent) ∧
      ∀ x ∈ evs, x ≠ batchCompletedEvent ∧ x ≠ maxIterationsEvent := by
  rcases (loopW_shape s mi mi 0 0 []).1 with ⟨h1, -, h3⟩ | ⟨h1, -, h3⟩
  · have hev : (runAgent mi s).events =
        analyzingEvent :: ((loopW s mi mi 0 0 []).events ++ [maxIterationsEvent]) := by
      show analyzingEvent :: ((loopW s mi mi 0 0 []).events ++
        if (loopW s mi mi 0 0 []).failed then [maxIterationsEvent] else []) = _
      rw [h1]
      rfl
    refine ⟨analyzingEvent :: (loopW s mi mi 0 0 []).events, maxIterationsEvent,
      ?_, Or.inr rfl, ?_⟩
    · rw [hev]
      rfl
    · intro x hx
      simp only [List.mem_cons] at hx
      rcases hx with rfl | hx
      · exact ne_terminals_of_thinking rfl
      · exact ne_terminals_of_thinking (h3 x hx).1
  · obtain ⟨evs, he1, he3⟩ := h3
    have hev : (runAgent mi s).events =
        analyzingEvent :: (loopW s mi mi 0 0 []).events := by
      show analyzingEvent :: ((loopW s mi mi 0 0 []).events ++
        if (loopW s mi mi 0 0 []).failed then [maxIterationsEvent] else []) = _
      rw [h1]
      simp
    refine ⟨analyzingEvent :: evs, batchCompletedEvent, ?_, Or.inl rfl, ?_⟩
    · rw [hev, he1]
      rfl
    · intro x hx
      simp only [List.mem_cons] at hx
      rcases hx with rfl | hx
      · exact ne_terminals_of_thinking rfl
      · exact ne_terminals_of_thinking (he3 x hx).1

end Kosuke
